import Mathlib

/-!
Verification of the styled-text engine of the `fiskar` repository
(`src/styled.rs`): interval algebra over half-open byte ranges, the
`StyledString` buffer-plus-spans structure and its mutators, and the
flattening projection used for rendering.

The UTF-8 buffer is modelled as a list of bytes (`List Nat`); all span
positions are byte offsets, exactly as in the source.  The external
`cursive::theme::Style` attribute type is opaque to the engine (only its
`combine` operation is used), so it is modelled as a type parameter `α`
together with a combine function `α → α → α`.
-/

namespace Fiskar

/-- A byte of the UTF-8 buffer. -/
abbrev Byte := Nat

/-- Half-open range `[start, stop)`, mirroring Rust's `Range<usize>`.
(`stop` stands for Rust's `end`, which is a Lean keyword.)  As in Rust,
`start > stop` is representable and such a range is empty. -/
structure Rg where
  start : Nat
  stop : Nat
  deriving Repr, DecidableEq

/-- Rust `Range::is_empty`: `!(start < end)`. -/
def Rg.isEmpty (r : Rg) : Bool := r.stop ≤ r.start

/-- Membership of a byte offset in a half-open range, as a proposition. -/
def Rg.mem (r : Rg) (x : Nat) : Prop := r.start ≤ x ∧ x < r.stop

instance (r : Rg) (x : Nat) : Decidable (r.mem x) :=
  inferInstanceAs (Decidable (r.start ≤ x ∧ x < r.stop))

/-- Rust `range.contains(&idx)` (Boolean form used inside the code). -/
def Rg.containsIdx (r : Rg) (i : Nat) : Bool := decide (r.start ≤ i) && decide (i < r.stop)

/-- Membership in an optional range (`none` contains nothing). -/
def memOpt (o : Option Rg) (x : Nat) : Prop :=
  match o with
  | some r => r.mem x
  | none => False

instance (o : Option Rg) (x : Nat) : Decidable (memOpt o x) :=
  match o with
  | some r => inferInstanceAs (Decidable (r.mem x))
  | none => inferInstanceAs (Decidable False)

/-- `range_intersection` from `styled.rs`: `r1` intersected with `r2`;
`none` if either is empty or they do not overlap. -/
def range_intersection (r1 r2 : Rg) : Option Rg :=
  if r1.isEmpty || r2.isEmpty || decide (r2.stop ≤ r1.start) || decide (r1.stop ≤ r2.start) then
    none
  else
    some ⟨max r1.start r2.start, min r1.stop r2.stop⟩

/-- `range_remove` from `styled.rs`: remove `re` from `r1`, returning the left
and right remainders. -/
def range_remove (r1 re : Rg) : Option Rg × Option Rg :=
  if re.isEmpty && !r1.isEmpty then
    (some r1, none)
  else if re.isEmpty || r1.isEmpty || r1 == re then
    (none, none)
  else
    match range_intersection r1 re with
    | none => (some r1, none)
    | some re' =>
      if decide (r1.start < re'.start) then
        let left : Rg := ⟨r1.start, re'.start⟩
        if decide (re'.stop ≥ r1.stop) then (some left, none)
        else (some left, some ⟨re'.stop, r1.stop⟩)
      else
        if decide (re'.stop ≥ r1.stop) then (none, none)
        else (none, some ⟨re'.stop, r1.stop⟩)

/-- `InsertMode` from `styled.rs`. -/
inductive InsertMode where
  | BreakApart
  | Extend
  deriving Repr, DecidableEq

/-- A single style span: `StyledIndexedSpan` from `styled.rs` (an attribute
plus a `[start, end)` byte range). -/
structure StyledIndexedSpan (α : Type) where
  attr : α
  range : Rg
  deriving Repr, DecidableEq

namespace StyledIndexedSpan

/-- `StyledIndexedSpan::is_empty`. -/
def isEmpty (s : StyledIndexedSpan α) : Bool := s.range.isEmpty

/-- `StyledIndexedSpan::offset`: shift both ends forward. -/
def offset (s : StyledIndexedSpan α) (off : Nat) : StyledIndexedSpan α :=
  ⟨s.attr, ⟨s.range.start + off, s.range.stop + off⟩⟩

/-- `StyledIndexedSpan::contains`. -/
def contains (s : StyledIndexedSpan α) (idx : Nat) : Bool := s.range.containsIdx idx

/-- `StyledIndexedSpan::intersection`. -/
def intersection (s : StyledIndexedSpan α) (range : Rg) : Option Rg :=
  range_intersection s.range range

/-- `StyledIndexedSpan::split_at`: split at `idx` when contained, dropping
empty halves. -/
def split_at (s : StyledIndexedSpan α) (idx : Nat) :
    Option (StyledIndexedSpan α) × Option (StyledIndexedSpan α) :=
  if s.contains idx then
    let leftR : Rg := ⟨s.range.start, idx⟩
    let leftSpan := if leftR.isEmpty then none else some (StyledIndexedSpan.mk s.attr leftR)
    let rightR : Rg := ⟨idx, s.range.stop⟩
    let rightSpan := if rightR.isEmpty then none else some (StyledIndexedSpan.mk s.attr rightR)
    (leftSpan, rightSpan)
  else (none, none)

end StyledIndexedSpan

/-- `StyledString` from `styled.rs`: a byte buffer plus a span list. -/
structure StyledString (α : Type) where
  source : List Byte
  spans : List (StyledIndexedSpan α)
  deriving Repr, DecidableEq

namespace StyledString

/-- `StyledString::with_spans`: construction from a buffer plus a pre-built
span list; the Rust code asserts `span.range.end <= source.len()` for every
span (a failed assertion is modelled as `none`). -/
def with_spans (source : List Byte) (spans : List (StyledIndexedSpan α)) :
    Option (StyledString α) :=
  if spans.all (fun span => decide (span.range.stop ≤ source.length)) then
    some (StyledString.mk source spans)
  else none

/-- Rust `str::is_char_boundary` on the byte buffer: true at 0, at the buffer
length, and at any byte that is not a UTF-8 continuation byte
(`(b as i8) >= -0x40`, i.e. `b < 0x80 ∨ b ≥ 0xC0`). -/
def is_char_boundary (s : List Byte) (idx : Nat) : Bool :=
  if idx == 0 then true
  else
    match s[idx]? with
    | none => idx == s.length
    | some b => decide (b < 128) || decide (192 ≤ b)

/-- The span-repair loop of `StyledString::insert_str`, threading the
`found_first_intersection` flag; `none` models the `panic!("Unsupported")`
arms reached in `Extend` mode. -/
def insert_str_spans (textLen idx : Nat) (mode : InsertMode) :
    List (StyledIndexedSpan α) → Bool → Option (List (StyledIndexedSpan α))
  | [], _ => some []
  | span :: rest, found =>
    if found then
      match mode with
      | InsertMode.BreakApart =>
        (insert_str_spans textLen idx mode rest true).map
          (fun tail => span.offset textLen :: tail)
      | InsertMode.Extend => none
    else if span.contains idx then
      match mode with
      | InsertMode.BreakApart =>
        let halves := span.split_at idx
        (insert_str_spans textLen idx mode rest true).map (fun tail =>
          (match halves.1 with | some l => [l] | none => []) ++
          (match halves.2 with | some r => [r.offset textLen] | none => []) ++ tail)
      | InsertMode.Extend => none
    else
      (insert_str_spans textLen idx mode rest found).map (fun tail => span :: tail)

/-- `StyledString::insert_str`: insert `text` at byte offset `idx` and repair
the spans.  `none` models a fatal failure: either `String::insert_str`'s
char-boundary assertion, or the `Extend`-mode `panic!("Unsupported")`. -/
def insert_str (s : StyledString α) (idx : Nat) (text : List Byte) (mode : InsertMode) :
    Option (StyledString α) :=
  if is_char_boundary s.source idx then
    (insert_str_spans text.length idx mode s.spans false).map
      (fun spans => StyledString.mk (s.source.take idx ++ text ++ s.source.drop idx) spans)
  else none

/-- The per-span loop of `StyledString::add_span_intersect`: splits every
existing span around its intersection with `new`, emitting a combined-attribute
span on the intersection, and threads `used_new_span.end` (the running maximum
intersection end). -/
def add_span_intersect_loop (comb : α → α → α) (new : StyledIndexedSpan α) :
    List (StyledIndexedSpan α) → Nat → List (StyledIndexedSpan α) × Nat
  | [], usedEnd => ([], usedEnd)
  | span :: rest, usedEnd =>
    match span.intersection new.range with
    | some inter =>
      let usedEnd' := max usedEnd inter.stop
      let removed := range_remove span.range inter
      let pieces :=
        (match removed.1 with
         | some l => [StyledIndexedSpan.mk span.attr l]
         | none => []) ++
        [StyledIndexedSpan.mk (comb span.attr new.attr) inter] ++
        (match removed.2 with
         | some r => [StyledIndexedSpan.mk span.attr r]
         | none => [])
      let rec_result := add_span_intersect_loop comb new rest usedEnd'
      (pieces ++ rec_result.1, rec_result.2)
    | none =>
      let rec_result := add_span_intersect_loop comb new rest usedEnd
      (span :: rec_result.1, rec_result.2)

/-- `StyledString::add_span_intersect`: add a new span, merging its attribute
(using the attribute-combine operation `comb`, Rust `Style::combine`) with
every existing span it overlaps, then append the leftover of the new span not
consumed by the running `used_new_span` range. -/
def add_span_intersect (comb : α → α → α) (s : StyledString α)
    (new : StyledIndexedSpan α) : StyledString α :=
  if new.isEmpty then s
  else
    let looped := add_span_intersect_loop comb new s.spans new.range.start
    let leftover := range_remove new.range ⟨new.range.start, looped.2⟩
    let resulting := looped.1 ++
      (match leftover.1 with
       | some l => [StyledIndexedSpan.mk new.attr l]
       | none => []) ++
      (match leftover.2 with
       | some r => [StyledIndexedSpan.mk new.attr r]
       | none => [])
    StyledString.mk s.source resulting

/-- `StyledString::append_source`. -/
def append_source (s : StyledString α) (source : List Byte) : StyledString α :=
  StyledString.mk (s.source ++ source) s.spans

/-- `StyledString::append_owned_spans`: note that the offset is the length of
`self.source` at the time of the call. -/
def append_owned_spans (s : StyledString α) (spans : List (StyledIndexedSpan α)) :
    StyledString α :=
  let off := s.source.length
  StyledString.mk s.source (s.spans ++ spans.map (fun span => span.offset off))

/-- `StyledString::append`: appends the source first, then the spans (so
`append_owned_spans` sees the already-extended buffer). -/
def append (s other : StyledString α) : StyledString α :=
  append_owned_spans (append_source s other.source) other.spans

/-- `StyledString::append_styled`: the new span's bounds are computed before
the source is appended. -/
def append_styled (s : StyledString α) (other : List Byte) (style : α) : StyledString α :=
  let start := s.source.length
  let stop := other.length + start
  let s' := append_source s other
  StyledString.mk s'.source (s'.spans ++ [StyledIndexedSpan.mk style ⟨start, stop⟩])

/-- `str::match_indices` for a literal pattern, on the byte buffer: start
offsets of the non-overlapping left-to-right occurrences of `pat` in `src`,
scanning from offset `i`.  (For a non-empty pattern this is exactly Rust's
behaviour; an empty pattern steps one byte at a time, which coincides with
Rust's char-boundary stepping on single-byte text.) -/
def matchIndicesAux (src pat : List Byte) : Nat → Nat → List Nat
  | _, 0 => []
  | i, fuel + 1 =>
    if i + pat.length ≤ src.length then
      if pat.isPrefixOf (src.drop i) then
        i :: matchIndicesAux src pat (i + max pat.length 1) fuel
      else
        matchIndicesAux src pat (i + 1) fuel
    else []

/-- All match start offsets of `pat` in `src`.  The fuel `src.length + 1`
bounds the number of scan steps; the scan position strictly increases and
stops past `src.length`, so this fuel is never exhausted before the scan
completes. -/
def matchIndices (src pat : List Byte) : List Nat :=
  matchIndicesAux src pat 0 (src.length + 1)

/-- The buffer-building loop of `StyledString::simple_replace`: walk the match
list, copying the unmatched stretch before each match and substituting `to`
for the matched text, then copy the tail after the last match. -/
def simpleReplaceAux (src frm tgt : List Byte) : List Nat → Nat → List Byte
  | [], lastEnd => src.drop lastEnd
  | st :: rest, lastEnd =>
    (src.drop lastEnd).take (st - lastEnd) ++ tgt ++
      simpleReplaceAux src frm tgt rest (st + frm.length)

/-- `StyledString::simple_replace`: replaces text content but keeps no styles
(the result is built from an empty `StyledString` by `append_source` only, so
its span list is empty). -/
def simple_replace (s : StyledString α) (frm tgt : List Byte) : StyledString α :=
  StyledString.mk (simpleReplaceAux s.source frm tgt (matchIndices s.source frm) 0) []

/-- `StyledString::replace_styled`: the buffer of `simple_replace`, with the
receiver's spans cloned over unchanged (the span-repair pass in the source is
commented out). -/
def replace_styled (s : StyledString α) (frm tgt : List Byte) : StyledString α :=
  let result := simple_replace s frm tgt
  StyledString.mk result.source s.spans

/-- The span-emitting loop of `impl Into<CursiveStyledString> for StyledString`:
synthesize a plain (`dflt`-attribute) span for the gap before each stored span,
then the trailing plain span up to `len`.  `last` is the running
`last_position`. -/
def flatten_spans (dflt : α) (len : Nat) :
    List (StyledIndexedSpan α) → Nat → List (StyledIndexedSpan α)
  | [], last => if last < len then [StyledIndexedSpan.mk dflt ⟨last, len⟩] else []
  | span :: rest, last =>
    let gap : Rg := ⟨last, span.range.start⟩
    (if !gap.isEmpty then [StyledIndexedSpan.mk dflt gap] else []) ++
      span :: flatten_spans dflt len rest span.range.stop

/-- The span sequence emitted by the render projection
(`Into<CursiveStyledString>`) for a styled string. -/
def into_cursive_spans (dflt : α) (s : StyledString α) : List (StyledIndexedSpan α) :=
  flatten_spans dflt s.source.length s.spans 0

end StyledString

/-- An optional range that, when present, is non-empty. -/
def optNonempty : Option Rg → Prop
  | some r => r.start < r.stop
  | none => True

/-- Left operand for the `append` offset evaluation: buffer "ab", no spans. -/
def appendBugLeft : StyledString Nat := StyledString.mk [97, 98] []

/-- Right operand for the `append` offset evaluation: buffer "cd" with one
span covering all of it. -/
def appendBugRight : StyledString Nat :=
  StyledString.mk [99, 100] [StyledIndexedSpan.mk 7 ⟨0, 2⟩]

/-- Sortedness-and-bounds condition under which the flatten projection is
total and non-overlapping: scanning from position `last`, each span starts at
or after the previous one ended, is well-oriented, and the chain ends at or
before `len`. -/
def spansSortedFrom (len : Nat) : Nat → List (StyledIndexedSpan α) → Prop
  | last, [] => last ≤ len
  | last, span :: rest =>
    last ≤ span.range.start ∧ span.range.start ≤ span.range.stop ∧
      spansSortedFrom len span.range.stop rest

instance spansSortedFromDec (len : Nat) :
    (last : Nat) → (spans : List (StyledIndexedSpan α)) →
      Decidable (spansSortedFrom len last spans)
  | _, [] => inferInstanceAs (Decidable (_ ≤ _))
  | last, span :: rest =>
    haveI := spansSortedFromDec len span.range.stop rest
    inferInstanceAs (Decidable (_ ∧ _ ∧ _))

/-- Specification-level literal replacement, stated as the spec words it:
scan the buffer left to right; at each position, if the (non-empty) pattern
occurs there, substitute `tgt` and continue after the matched text, otherwise
keep the byte.  Used to check `simple_replace` against the specification. -/
def replaceAllSpec (frm tgt : List Byte) : List Byte → List Byte
  | [] => []
  | b :: rest =>
    if h : frm ≠ [] ∧ frm.isPrefixOf (b :: rest) then
      tgt ++ replaceAllSpec frm tgt ((b :: rest).drop frm.length)
    else
      b :: replaceAllSpec frm tgt rest
termination_by s => s.length
decreasing_by
  · have : 0 < frm.length := List.length_pos.mpr h.1
    simp only [List.length_drop, List.length_cons]
    omega
  · simp only [List.length_cons]
    omega

/-- A byte offset is covered by some span of the list. -/
def coveredBy (spans : List (StyledIndexedSpan α)) (x : Nat) : Prop :=
  ∃ span ∈ spans, span.range.mem x

instance (spans : List (StyledIndexedSpan α)) (x : Nat) : Decidable (coveredBy spans x) :=
  inferInstanceAs (Decidable (∃ span ∈ spans, span.range.mem x))

theorem mem_range_intersection (r1 r2 : Rg) (x : Nat) :
    memOpt (range_intersection r1 r2) x ↔ r1.mem x ∧ r2.mem x := by
  rcases r1 with ⟨a, b⟩
  rcases r2 with ⟨c, d⟩
  simp only [range_intersection, Rg.isEmpty, Bool.or_eq_true, decide_eq_true_eq]
  split_ifs with h
  · simp only [memOpt, Rg.mem, false_iff, not_and, not_lt]
    omega
  · simp only [memOpt, Rg.mem]
    omega

theorem range_intersection_eq (r1 r2 : Rg) (r : Rg)
    (h : range_intersection r1 r2 = some r) :
    r = ⟨max r1.start r2.start, min r1.stop r2.stop⟩ ∧
      r1.start < r1.stop ∧ r2.start < r2.stop ∧ r1.start < r2.stop ∧ r2.start < r1.stop := by
  unfold range_intersection at h
  split_ifs at h with hc
  simp only [Option.some.injEq] at h
  simp only [Rg.isEmpty, Bool.or_eq_true, decide_eq_true_eq, not_or] at hc
  exact ⟨h.symm, by omega⟩

theorem range_intersection_none (r1 r2 : Rg) (h : range_intersection r1 r2 = none) :
    r1.stop ≤ r1.start ∨ r2.stop ≤ r2.start ∨ r2.stop ≤ r1.start ∨ r1.stop ≤ r2.start := by
  unfold range_intersection at h
  split_ifs at h with hc
  simp only [Rg.isEmpty, Bool.or_eq_true, decide_eq_true_eq] at hc
  omega

theorem range_remove_mem_iff (r1 re : Rg) (x : Nat) :
    r1.mem x ↔
      (memOpt (range_remove r1 re).1 x ∨ memOpt (range_intersection r1 re) x ∨
        memOpt (range_remove r1 re).2 x) := by
  rcases hI : range_intersection r1 re with _ | re'
  · have hmem := range_intersection_none r1 re hI
    rcases r1 with ⟨a, b⟩
    rcases re with ⟨c, d⟩
    simp only at hmem
    unfold range_remove
    rw [hI]
    simp only [Rg.isEmpty, beq_iff_eq, Rg.mk.injEq, Bool.and_eq_true, Bool.not_eq_true',
      Bool.or_eq_true, decide_eq_true_eq, decide_eq_false_iff_not]
    split_ifs with h1 h2 <;>
      simp only [memOpt, Rg.mem, false_or, or_false, iff_false, false_iff, not_and, not_lt,
        not_le, not_or] <;>
      omega
  · obtain ⟨rfl, hs⟩ := range_intersection_eq r1 re re' hI
    rcases r1 with ⟨a, b⟩
    rcases re with ⟨c, d⟩
    simp only at hs
    unfold range_remove
    rw [hI]
    simp only [Rg.isEmpty, beq_iff_eq, Rg.mk.injEq, Bool.and_eq_true, Bool.not_eq_true',
      Bool.or_eq_true, decide_eq_true_eq, decide_eq_false_iff_not, ge_iff_le]
    split_ifs with h1 h2 h3 h4 h5 <;>
      simp only [memOpt, Rg.mem, false_or, or_false, iff_false, false_iff, not_and, not_lt,
        not_le, not_or] <;>
      omega

theorem range_remove_disjoint (r1 re : Rg) (x : Nat) :
    (¬(memOpt (range_remove r1 re).1 x ∧ memOpt (range_intersection r1 re) x)) ∧
    (¬(memOpt (range_remove r1 re).1 x ∧ memOpt (range_remove r1 re).2 x)) ∧
    (¬(memOpt (range_intersection r1 re) x ∧ memOpt (range_remove r1 re).2 x)) := by
  rcases hI : range_intersection r1 re with _ | re'
  · have hmem := range_intersection_none r1 re hI
    rcases r1 with ⟨a, b⟩
    rcases re with ⟨c, d⟩
    simp only at hmem
    unfold range_remove
    rw [hI]
    simp only [Rg.isEmpty, beq_iff_eq, Rg.mk.injEq, Bool.and_eq_true, Bool.not_eq_true',
      Bool.or_eq_true, decide_eq_true_eq, decide_eq_false_iff_not]
    split_ifs with h1 h2 <;>
      simp only [memOpt, Rg.mem, false_or, or_false, and_false, false_and, not_and, not_lt,
        not_le, not_or, not_false_iff, and_true, true_and] <;>
      omega
  · obtain ⟨rfl, hs⟩ := range_intersection_eq r1 re re' hI
    rcases r1 with ⟨a, b⟩
    rcases re with ⟨c, d⟩
    simp only at hs
    unfold range_remove
    rw [hI]
    simp only [Rg.isEmpty, beq_iff_eq, Rg.mk.injEq, Bool.and_eq_true, Bool.not_eq_true',
      Bool.or_eq_true, decide_eq_true_eq, decide_eq_false_iff_not, ge_iff_le]
    split_ifs with h1 h2 h3 h4 h5 <;>
      simp only [memOpt, Rg.mem, false_or, or_false, and_false, false_and, not_and, not_lt,
        not_le, not_or, not_false_iff, and_true, true_and] <;>
      omega

/-- C6: for all half-open ranges `r1` and `re`, the remainder ranges returned
by `range_remove r1 re` (those that are present) together with
`range_intersection r1 re` (when present) are pairwise disjoint and their
union is exactly `r1`. -/
theorem spec_C6_remove_completeness (r1 re : Rg) (x : Nat) :
    (r1.mem x ↔
      (memOpt (range_remove r1 re).1 x ∨ memOpt (range_intersection r1 re) x ∨
        memOpt (range_remove r1 re).2 x)) ∧
    (¬(memOpt (range_remove r1 re).1 x ∧ memOpt (range_intersection r1 re) x)) ∧
    (¬(memOpt (range_remove r1 re).1 x ∧ memOpt (range_remove r1 re).2 x)) ∧
    (¬(memOpt (range_intersection r1 re) x ∧ memOpt (range_remove r1 re).2 x)) :=
  ⟨range_remove_mem_iff r1 re x, (range_remove_disjoint r1 re x).1,
    (range_remove_disjoint r1 re x).2.1, (range_remove_disjoint r1 re x).2.2⟩

/-- C7: for equal-length patterns, `replace_styled` returns the
`simple_replace` buffer and carries the receiver's span list over with every
range numerically unchanged.  (In the code the span list is carried over
verbatim for any pattern lengths; the equal-length hypothesis of the claim is
kept.) -/
theorem spec_C7_replace_styled_equal_len (s : StyledString α) (frm tgt : List Byte)
    (h : frm.length = tgt.length) :
    (StyledString.replace_styled s frm tgt).source =
        (StyledString.simple_replace s frm tgt).source ∧
      (StyledString.replace_styled s frm tgt).spans = s.spans :=
  ⟨rfl, rfl⟩

/-- Witness for C7 at a concrete input: buffer "fo" with one span, replacing
"f" (length 1) by "b" (length 1). -/
theorem spec_C7_replace_styled_equal_len_witness :
    ([102] : List Byte).length = ([98] : List Byte).length ∧
      ((StyledString.replace_styled
            (StyledString.mk [102, 111] [StyledIndexedSpan.mk (1 : Nat) ⟨0, 2⟩]) [102] [98]).source =
          (StyledString.simple_replace
            (StyledString.mk [102, 111] [StyledIndexedSpan.mk (1 : Nat) ⟨0, 2⟩]) [102] [98]).source ∧
        (StyledString.replace_styled
            (StyledString.mk [102, 111] [StyledIndexedSpan.mk (1 : Nat) ⟨0, 2⟩]) [102] [98]).spans =
          (StyledString.mk [102, 111] [StyledIndexedSpan.mk (1 : Nat) ⟨0, 2⟩]).spans) :=
  ⟨by decide,
    spec_C7_replace_styled_equal_len
      (StyledString.mk [102, 111] [StyledIndexedSpan.mk (1 : Nat) ⟨0, 2⟩]) [102] [98] (by decide)⟩

/-- C2 (code bug): `append` offsets the appended spans by the post-append
buffer length.  Appending "cd" carrying span `0..2` onto "ab" yields span
`4..6` — not the claimed `2..4` — so the appended span no longer covers the
text it covered in `other`, and even exceeds the 4-byte result buffer. -/
theorem spec_C2_append_offset_evaluation :
    StyledString.append appendBugLeft appendBugRight =
        StyledString.mk [97, 98, 99, 100] [StyledIndexedSpan.mk 7 ⟨4, 6⟩] ∧
      appendBugLeft.source.length = 2 := by
  decide

/-- C3 (code bug): after the same `append`, the bounds invariant
`span.end <= buffer.length` is violated: the resulting span ends at 6 while
the buffer has length 4. -/
theorem spec_C3_bounds_violated_by_append :
    ((StyledString.append appendBugLeft appendBugRight).spans.all
        (fun span =>
          decide (span.range.stop ≤ (StyledString.append appendBugLeft appendBugRight).source.length))) =
      false := by
  decide

/-- C10: inserting at a byte offset that lies strictly inside a multi-byte
UTF-8 character (a nonzero in-bounds offset whose byte is a continuation
byte `0x80..0xBF`) fails fatally for every text and mode: being an in-bounds
byte offset is not a sufficient precondition. -/
theorem spec_C10_insert_inside_char_fails (s : StyledString α) (idx : Nat)
    (text : List Byte) (mode : InsertMode)
    (h0 : idx ≠ 0) (h1 : idx < s.source.length)
    (h2 : 128 ≤ s.source.getD idx 0) (h3 : s.source.getD idx 0 < 192) :
    StyledString.insert_str s idx text mode = none := by
  have hx : s.source[idx]? = some (s.source.getD idx 0) := by
    rw [List.getElem?_eq_getElem h1, List.getD_eq_getElem?_getD,
      List.getElem?_eq_getElem h1]
    rfl
  have hb : StyledString.is_char_boundary s.source idx = false := by
    unfold StyledString.is_char_boundary
    rw [if_neg (by simpa using h0), hx]
    show (decide (s.source.getD idx 0 < 128) || decide (192 ≤ s.source.getD idx 0)) = false
    simp only [Bool.or_eq_false_iff, decide_eq_false_iff_not, not_lt, not_le]
    exact ⟨h2, h3⟩
  unfold StyledString.insert_str
  rw [hb]
  rfl

/-- Witness for C10: the buffer "é" (bytes `C3 A9`), insertion at offset 1
(inside the character) fails in `BreakApart` mode. -/
theorem spec_C10_insert_inside_char_fails_witness :
    ((1 : Nat) ≠ 0 ∧
        1 < (StyledString.mk [195, 169] ([] : List (StyledIndexedSpan Nat))).source.length ∧
        128 ≤ (StyledString.mk [195, 169] ([] : List (StyledIndexedSpan Nat))).source.getD 1 0 ∧
        (StyledString.mk [195, 169] ([] : List (StyledIndexedSpan Nat))).source.getD 1 0 < 192) ∧
      StyledString.insert_str (StyledString.mk [195, 169] ([] : List (StyledIndexedSpan Nat)))
          1 [97] InsertMode.BreakApart = none :=
  ⟨⟨by decide, by decide, by decide, by decide⟩,
    spec_C10_insert_inside_char_fails
      (StyledString.mk [195, 169] ([] : List (StyledIndexedSpan Nat))) 1 [97]
      InsertMode.BreakApart (by decide) (by decide) (by decide) (by decide)⟩

theorem insert_str_spans_breakApart_isSome (textLen idx : Nat)
    (spans : List (StyledIndexedSpan α)) (found : Bool) :
    (StyledString.insert_str_spans textLen idx InsertMode.BreakApart spans found).isSome =
      true := by
  induction spans generalizing found with
  | nil => rfl
  | cons span rest ih =>
    unfold StyledString.insert_str_spans
    split_ifs with h1 h2 <;> simp [Option.isSome_map', ih]

theorem insert_str_spans_extend_none_iff (textLen idx : Nat)
    (spans : List (StyledIndexedSpan α)) :
    (StyledString.insert_str_spans textLen idx InsertMode.Extend spans false = none) ↔
      spans.any (fun span => span.contains idx) = true := by
  induction spans with
  | nil => simp [StyledString.insert_str_spans]
  | cons span rest ih =>
    unfold StyledString.insert_str_spans
    rw [if_neg (by simp)]
    split_ifs with h
    · simp [h]
    · simp [Option.map_eq_none', ih, h]

/-- C5: with `idx` in bounds and on a character boundary, `insert_str` fails
fatally if and only if the mode is `Extend` and some span contains `idx`; in
`BreakApart` mode, and in `Extend` mode when no span contains `idx`, it never
fails. -/
theorem spec_C5_insert_failure_iff (s : StyledString α) (idx : Nat) (text : List Byte)
    (mode : InsertMode) (hidx : idx ≤ s.source.length)
    (hb : StyledString.is_char_boundary s.source idx = true) :
    (StyledString.insert_str s idx text mode = none ↔
      (mode = InsertMode.Extend ∧ s.spans.any (fun span => span.contains idx) = true)) := by
  unfold StyledString.insert_str
  rw [hb, if_pos rfl]
  cases mode with
  | BreakApart =>
    have h := insert_str_spans_breakApart_isSome (α := α) text.length idx s.spans false
    constructor
    · intro hc
      rw [Option.map_eq_none'] at hc
      rw [hc] at h
      simp at h
    · rintro ⟨h1, _⟩
      cases h1
  | Extend =>
    rw [Option.map_eq_none', insert_str_spans_extend_none_iff]
    simp

/-- Witness for C5: buffer "ab" with span `0..2`, inserting "x" at offset 1 in
`Extend` mode (a span contains the offset, so the operation fails). -/
theorem spec_C5_insert_failure_iff_witness :
    ((1 : Nat) ≤ (StyledString.mk ([97, 98] : List Byte)
          [StyledIndexedSpan.mk (5 : Nat) ⟨0, 2⟩]).source.length ∧
        StyledString.is_char_boundary
          (StyledString.mk ([97, 98] : List Byte)
            [StyledIndexedSpan.mk (5 : Nat) ⟨0, 2⟩]).source 1 = true) ∧
      (StyledString.insert_str
            (StyledString.mk ([97, 98] : List Byte) [StyledIndexedSpan.mk (5 : Nat) ⟨0, 2⟩])
            1 [120] InsertMode.Extend = none ↔
        (InsertMode.Extend = InsertMode.Extend ∧
          (StyledString.mk ([97, 98] : List Byte)
              [StyledIndexedSpan.mk (5 : Nat) ⟨0, 2⟩]).spans.any
            (fun span => span.contains 1) = true)) :=
  ⟨⟨by decide, by decide⟩,
    spec_C5_insert_failure_iff
      (StyledString.mk ([97, 98] : List Byte) [StyledIndexedSpan.mk (5 : Nat) ⟨0, 2⟩])
      1 [120] InsertMode.Extend (by decide) (by decide)⟩

theorem range_intersection_some_nonempty (r1 r2 r : Rg)
    (h : range_intersection r1 r2 = some r) : r.start < r.stop := by
  obtain ⟨rfl, h2⟩ := range_intersection_eq r1 r2 r h
  show max r1.start r2.start < min r1.stop r2.stop
  omega

theorem range_remove_nonempty (r1 re : Rg) :
    optNonempty (range_remove r1 re).1 ∧ optNonempty (range_remove r1 re).2 := by
  rcases hI : range_intersection r1 re with _ | re'
  · rcases r1 with ⟨a, b⟩
    rcases re with ⟨c, d⟩
    unfold range_remove
    rw [hI]
    simp only [Rg.isEmpty, beq_iff_eq, Rg.mk.injEq, Bool.and_eq_true, Bool.not_eq_true',
      Bool.or_eq_true, decide_eq_true_eq, decide_eq_false_iff_not]
    split_ifs with h1 h2 <;>
      simp only [optNonempty, and_true, true_and] <;>
      omega
  · obtain ⟨rfl, hs⟩ := range_intersection_eq r1 re re' hI
    rcases r1 with ⟨a, b⟩
    rcases re with ⟨c, d⟩
    simp only at hs
    unfold range_remove
    rw [hI]
    simp only [Rg.isEmpty, beq_iff_eq, Rg.mk.injEq, Bool.and_eq_true, Bool.not_eq_true',
      Bool.or_eq_true, decide_eq_true_eq, decide_eq_false_iff_not, ge_iff_le]
    split_ifs with h1 h2 h3 h4 h5 <;>
      simp only [optNonempty, and_true, true_and] <;>
      omega

theorem split_at_nonempty (s : StyledIndexedSpan α) (idx : Nat) (sp : StyledIndexedSpan α)
    (hsp : (s.split_at idx).1 = some sp ∨ (s.split_at idx).2 = some sp) :
    sp.range.start < sp.range.stop := by
  unfold StyledIndexedSpan.split_at at hsp
  by_cases h : s.contains idx = true
  · rw [if_pos h] at hsp
    simp only at hsp
    rcases hsp with hsp | hsp <;>
      split_ifs at hsp with h1 <;>
      simp only [Option.some.injEq] at hsp <;>
      first
        | (subst hsp
           simp only [Rg.isEmpty, decide_eq_true_eq, not_le] at h1
           exact h1)
        | cases hsp
  · rw [if_neg h] at hsp
    rcases hsp with hsp | hsp <;> cases hsp

theorem forall_mem_match_opt (P : StyledIndexedSpan α → Prop) (o : Option Rg) (a : α)
    (h : ∀ r, o = some r → P (StyledIndexedSpan.mk a r)) :
    ∀ sp ∈ (match o with
            | some l => [StyledIndexedSpan.mk a l]
            | none => ([] : List (StyledIndexedSpan α))), P sp := by
  rcases o with _ | r
  · intro sp hsp
    cases hsp
  · intro sp hsp
    rcases List.mem_singleton.mp hsp with rfl
    exact h r rfl

theorem add_span_intersect_loop_nonempty (comb : α → α → α) (new : StyledIndexedSpan α)
    (spans : List (StyledIndexedSpan α)) (u : Nat)
    (h : ∀ sp ∈ spans, sp.range.start < sp.range.stop) :
    ∀ sp ∈ (StyledString.add_span_intersect_loop comb new spans u).1,
      sp.range.start < sp.range.stop := by
  induction spans generalizing u with
  | nil =>
    intro sp hsp
    cases hsp
  | cons span rest ih =>
    have hhead := h span (List.mem_cons_self _ _)
    have htail : ∀ sp ∈ rest, sp.range.start < sp.range.stop :=
      fun q hq => h q (List.mem_cons_of_mem _ hq)
    unfold StyledString.add_span_intersect_loop
    rcases hI : span.intersection new.range with _ | inter
    · intro sp hsp
      rcases List.mem_cons.mp hsp with rfl | hsp
      · exact hhead
      · exact ih _ htail sp hsp
    · have hrem := range_remove_nonempty span.range inter
      have hint := range_intersection_some_nonempty span.range new.range inter hI
      intro sp hsp
      simp only [List.append_assoc, List.mem_append] at hsp
      rcases hsp with hsp | hsp | hsp | hsp
      · refine forall_mem_match_opt (fun q => q.range.start < q.range.stop) _ _ ?_ sp hsp
        intro r hr
        rw [hr] at hrem
        exact hrem.1
      · rcases List.mem_singleton.mp hsp with rfl
        exact hint
      · refine forall_mem_match_opt (fun q => q.range.start < q.range.stop) _ _ ?_ sp hsp
        intro r hr
        rw [hr] at hrem
        exact hrem.2
      · exact ih _ htail sp hsp

theorem add_span_intersect_nonempty (comb : α → α → α) (s : StyledString α)
    (new : StyledIndexedSpan α)
    (h : ∀ sp ∈ s.spans, sp.range.start < sp.range.stop) :
    ∀ sp ∈ (StyledString.add_span_intersect comb s new).spans,
      sp.range.start < sp.range.stop := by
  unfold StyledString.add_span_intersect
  split_ifs with hne
  · exact h
  · have hrem := range_remove_nonempty new.range
      ⟨new.range.start, (StyledString.add_span_intersect_loop comb new s.spans new.range.start).2⟩
    intro sp hsp
    simp only [List.append_assoc, List.mem_append] at hsp
    rcases hsp with hsp | hsp | hsp
    · exact add_span_intersect_loop_nonempty comb new s.spans _ h sp hsp
    · refine forall_mem_match_opt (fun q => q.range.start < q.range.stop) _ _ ?_ sp hsp
      intro r hr
      rw [hr] at hrem
      exact hrem.1
    · refine forall_mem_match_opt (fun q => q.range.start < q.range.stop) _ _ ?_ sp hsp
      intro r hr
      rw [hr] at hrem
      exact hrem.2

theorem insert_str_spans_nonempty (textLen idx : Nat) (mode : InsertMode)
    (spans : List (StyledIndexedSpan α)) (found : Bool)
    (res : List (StyledIndexedSpan α))
    (hres : StyledString.insert_str_spans textLen idx mode spans found = some res)
    (h : ∀ sp ∈ spans, sp.range.start < sp.range.stop) :
    ∀ sp ∈ res, sp.range.start < sp.range.stop := by
  induction spans generalizing found res with
  | nil =>
    unfold StyledString.insert_str_spans at hres
    simp only [Option.some.injEq] at hres
    subst hres
    intro sp hsp
    cases hsp
  | cons span rest ih =>
    have hhead := h span (List.mem_cons_self _ _)
    have htail : ∀ sp ∈ rest, sp.range.start < sp.range.stop :=
      fun q hq => h q (List.mem_cons_of_mem _ hq)
    unfold StyledString.insert_str_spans at hres
    cases mode with
    | Extend =>
      split_ifs at hres with h1 h2
      obtain ⟨tail, htl, rfl⟩ := Option.map_eq_some'.mp hres
      intro sp hsp
      rcases List.mem_cons.mp hsp with rfl | hsp
      · exact hhead
      · exact ih _ _ htl htail sp hsp
    | BreakApart =>
      split_ifs at hres with h1 h2
      · obtain ⟨tail, htl, rfl⟩ := Option.map_eq_some'.mp hres
        intro sp hsp
        rcases List.mem_cons.mp hsp with rfl | hsp
        · unfold StyledIndexedSpan.offset
          simp only
          omega
        · exact ih _ _ htl htail sp hsp
      · obtain ⟨tail, htl, rfl⟩ := Option.map_eq_some'.mp hres
        intro sp hsp
        simp only [List.append_assoc, List.mem_append] at hsp
        rcases hsp with hsp | hsp | hsp
        · rcases hL : (span.split_at idx).1 with _ | l
          · rw [hL] at hsp
            cases hsp
          · rw [hL] at hsp
            rcases List.mem_singleton.mp hsp with rfl
            exact split_at_nonempty span idx sp (Or.inl hL)
        · rcases hR : (span.split_at idx).2 with _ | r
          · rw [hR] at hsp
            cases hsp
          · rw [hR] at hsp
            rcases List.mem_singleton.mp hsp with rfl
            have hr := split_at_nonempty span idx r (Or.inr hR)
            unfold StyledIndexedSpan.offset
            simp only
            omega
        · exact ih _ _ htl htail sp hsp
      · obtain ⟨tail, htl, rfl⟩ := Option.map_eq_some'.mp hres
        intro sp hsp
        rcases List.mem_cons.mp hsp with rfl | hsp
        · exact hhead
        · exact ih _ _ htl htail sp hsp

theorem append_nonempty (s other : StyledString α)
    (hs : ∀ sp ∈ s.spans, sp.range.start < sp.range.stop)
    (ho : ∀ sp ∈ other.spans, sp.range.start < sp.range.stop) :
    ∀ sp ∈ (StyledString.append s other).spans, sp.range.start < sp.range.stop := by
  intro sp hsp
  unfold StyledString.append StyledString.append_owned_spans StyledString.append_source at hsp
  simp only [List.mem_append] at hsp
  rcases hsp with hsp | hsp
  · exact hs sp hsp
  · obtain ⟨q, hq, rfl⟩ := List.mem_map.mp hsp
    have := ho q hq
    unfold StyledIndexedSpan.offset
    simp only
    omega

theorem append_styled_nonempty (s : StyledString α) (other : List Byte) (style : α)
    (hs : ∀ sp ∈ s.spans, sp.range.start < sp.range.stop) (ho : other ≠ []) :
    ∀ sp ∈ (StyledString.append_styled s other style).spans,
      sp.range.start < sp.range.stop := by
  intro sp hsp
  unfold StyledString.append_styled StyledString.append_source at hsp
  simp only [List.mem_append, List.mem_singleton] at hsp
  rcases hsp with hsp | rfl
  · exact hs sp hsp
  · have : 0 < other.length := List.length_pos.mpr ho
    simp only
    omega

/-- C9 (counterexample): contrary to the claim, empty spans are not filtered
out.  `with_spans` retains a pre-built span with `start == end` (it only
bounds-checks), and the mutator `append_styled` with empty text inserts a
degenerate span `1..1` into the span list. -/
theorem spec_C9_counterexample :
    (StyledString.with_spans ([0, 0] : List Byte) [StyledIndexedSpan.mk (5 : Nat) ⟨1, 1⟩] =
        some (StyledString.mk [0, 0] [StyledIndexedSpan.mk 5 ⟨1, 1⟩]) ∧
      (StyledIndexedSpan.mk (5 : Nat) (⟨1, 1⟩ : Rg)).isEmpty = true) ∧
    ((StyledString.append_styled (StyledString.mk ([0] : List Byte)
          ([] : List (StyledIndexedSpan Nat))) [] 7).spans =
        [StyledIndexedSpan.mk 7 ⟨1, 1⟩] ∧
      (⟨1, 1⟩ : Rg).isEmpty = true) := by
  decide

/-- C9 (amended): `with_spans` retains empty spans (it only bounds-checks),
but on styled strings whose spans are all non-empty, the mutators themselves
never introduce an empty span: `add_span_intersect` (for any new span),
`insert_str` (when it succeeds), and `append` preserve non-emptiness of every
stored span, and `append_styled` does so whenever the appended text is
non-empty. -/
theorem spec_C9_amended (comb : α → α → α) (s other : StyledString α)
    (new : StyledIndexedSpan α) (idx : Nat) (text txt : List Byte)
    (mode : InsertMode) (style : α) :
    (s.spans.all (fun sp => !sp.isEmpty) = true →
      (StyledString.add_span_intersect comb s new).spans.all (fun sp => !sp.isEmpty) = true) ∧
    (∀ res, s.spans.all (fun sp => !sp.isEmpty) = true →
      StyledString.insert_str s idx text mode = some res →
      res.spans.all (fun sp => !sp.isEmpty) = true) ∧
    (s.spans.all (fun sp => !sp.isEmpty) = true →
      other.spans.all (fun sp => !sp.isEmpty) = true →
      (StyledString.append s other).spans.all (fun sp => !sp.isEmpty) = true) ∧
    (s.spans.all (fun sp => !sp.isEmpty) = true → txt ≠ [] →
      (StyledString.append_styled s txt style).spans.all (fun sp => !sp.isEmpty) = true) := by
  have hconv : ∀ (l : List (StyledIndexedSpan α)),
      l.all (fun sp => !sp.isEmpty) = true ↔
        ∀ sp ∈ l, sp.range.start < sp.range.stop := by
    intro l
    rw [List.all_eq_true]
    constructor <;>
      intro hl sp hsp <;>
      have := hl sp hsp <;>
      simp only [StyledIndexedSpan.isEmpty, Rg.isEmpty, Bool.not_eq_true',
        decide_eq_false_iff_not, not_le] at this ⊢ <;>
      omega
  refine ⟨?_, ?_, ?_, ?_⟩
  · intro hs
    exact (hconv _).mpr (add_span_intersect_nonempty comb s new ((hconv _).mp hs))
  · intro res hs hres
    unfold StyledString.insert_str at hres
    split_ifs at hres with hb
    obtain ⟨spans, hspans, rfl⟩ := Option.map_eq_some'.mp hres
    exact (hconv _).mpr
      (insert_str_spans_nonempty text.length idx mode s.spans false spans hspans
        ((hconv _).mp hs))
  · intro hs ho
    exact (hconv _).mpr (append_nonempty s other ((hconv _).mp hs) ((hconv _).mp ho))
  · intro hs ht
    exact (hconv _).mpr (append_styled_nonempty s txt style ((hconv _).mp hs) ht)

/-- Witness for the amended C9 at concrete inputs: starting from buffer "abc"
with the non-empty span `0..2`, each mutator's output has only non-empty
spans. -/
theorem spec_C9_amended_witness :
    ((StyledString.mk ([97, 98, 99] : List Byte)
        [StyledIndexedSpan.mk (1 : Nat) ⟨0, 2⟩]).spans.all (fun sp => !sp.isEmpty) = true) ∧
    ((StyledString.add_span_intersect (fun a b => a + b)
        (StyledString.mk [97, 98, 99] [StyledIndexedSpan.mk (1 : Nat) ⟨0, 2⟩])
        (StyledIndexedSpan.mk 4 ⟨1, 3⟩)).spans.all (fun sp => !sp.isEmpty) = true) ∧
    ((StyledString.append (StyledString.mk [97, 98, 99] [StyledIndexedSpan.mk (1 : Nat) ⟨0, 2⟩])
        (StyledString.mk [100] [StyledIndexedSpan.mk 2 ⟨0, 1⟩])).spans.all
        (fun sp => !sp.isEmpty) = true) ∧
    ((StyledString.append_styled
        (StyledString.mk [97, 98, 99] [StyledIndexedSpan.mk (1 : Nat) ⟨0, 2⟩])
        [100] 9).spans.all (fun sp => !sp.isEmpty) = true) :=
  ⟨by decide,
    (spec_C9_amended (fun a b => a + b)
      (StyledString.mk [97, 98, 99] [StyledIndexedSpan.mk (1 : Nat) ⟨0, 2⟩])
      (StyledString.mk [100] [StyledIndexedSpan.mk 2 ⟨0, 1⟩])
      (StyledIndexedSpan.mk 4 ⟨1, 3⟩) 0 [] [100] InsertMode.BreakApart 9).1 (by decide),
    (spec_C9_amended (fun a b => a + b)
      (StyledString.mk [97, 98, 99] [StyledIndexedSpan.mk (1 : Nat) ⟨0, 2⟩])
      (StyledString.mk [100] [StyledIndexedSpan.mk 2 ⟨0, 1⟩])
      (StyledIndexedSpan.mk 4 ⟨1, 3⟩) 0 [] [100] InsertMode.BreakApart 9).2.2.1
      (by decide) (by decide),
    (spec_C9_amended (fun a b => a + b)
      (StyledString.mk [97, 98, 99] [StyledIndexedSpan.mk (1 : Nat) ⟨0, 2⟩])
      (StyledString.mk [100] [StyledIndexedSpan.mk 2 ⟨0, 1⟩])
      (StyledIndexedSpan.mk 4 ⟨1, 3⟩) 0 [] [100] InsertMode.BreakApart 9).2.2.2
      (by decide) (by decide)⟩

theorem spansSortedFrom_le (len : Nat) (spans : List (StyledIndexedSpan α)) (last : Nat)
    (h : spansSortedFrom len last spans) : last ≤ len := by
  induction spans generalizing last with
  | nil => exact h
  | cons span rest ih =>
    obtain ⟨h1, h2, h3⟩ := h
    have := ih _ h3
    omega

theorem flatten_spans_count (dflt : α) (len : Nat) (spans : List (StyledIndexedSpan α))
    (last : Nat) (h : spansSortedFrom len last spans) (x : Nat) :
    (StyledString.flatten_spans dflt len spans last).countP
        (fun sp => sp.range.containsIdx x) =
      if last ≤ x ∧ x < len then 1 else 0 := by
  induction spans generalizing last with
  | nil =>
    unfold spansSortedFrom at h
    unfold StyledString.flatten_spans
    split_ifs with h1 h2 h3 <;>
      simp_all [List.countP_cons, List.countP_nil, Rg.containsIdx] <;>
      omega
  | cons span rest ih =>
    obtain ⟨h1, h2, h3⟩ := h
    have hlen : span.range.stop ≤ len := spansSortedFrom_le len rest _ h3
    unfold StyledString.flatten_spans
    rw [List.countP_append]
    split_ifs with hg <;>
      simp only [Rg.isEmpty, Bool.not_eq_true', decide_eq_false_iff_not, not_le,
        decide_eq_true_eq] at hg <;>
      simp only [List.countP_cons, List.countP_nil] <;>
      rw [ih _ h3] <;>
      simp only [Rg.containsIdx, Bool.and_eq_true, decide_eq_true_eq] <;>
      split_ifs <;>
      omega

/-- C4 (counterexample): the render projection is not non-overlapping for
every styled string value.  With stored spans `[3..5, 1..2 styled in reverse
order]` on a 5-byte buffer — a legal stored representation, since the stored
span list is insertion-ordered — byte 3 is covered by two emitted spans. -/
theorem spec_C4_counterexample :
    ((StyledString.into_cursive_spans (0 : Nat)
          (StyledString.mk ([0, 0, 0, 0, 0] : List Byte)
            [StyledIndexedSpan.mk 1 ⟨3, 5⟩, StyledIndexedSpan.mk 2 ⟨0, 2⟩])).countP
        (fun sp => sp.range.containsIdx 3)) = 2 := by
  decide

/-- C4 (amended): for styled strings whose stored spans are in bounds and
listed in non-decreasing, non-overlapping order (each span starting at or
after the previous span's end), the render projection emits a span sequence
covering every byte of the buffer exactly once — hence pairwise
non-overlapping with union exactly `0..buffer.length`. -/
theorem spec_C4_flatten_totality (dflt : α) (s : StyledString α)
    (h : spansSortedFrom s.source.length 0 s.spans) (x : Nat) :
    (StyledString.into_cursive_spans dflt s).countP
        (fun sp => sp.range.containsIdx x) =
      if x < s.source.length then 1 else 0 := by
  have hc := flatten_spans_count dflt s.source.length s.spans 0 h x
  unfold StyledString.into_cursive_spans
  rw [hc]
  congr 1
  simp

/-- Witness for the amended C4: buffer of 3 bytes with the single sorted span
`1..2`; byte 1 is covered exactly once. -/
theorem spec_C4_flatten_totality_witness :
    spansSortedFrom (3 : Nat) 0 [StyledIndexedSpan.mk (1 : Nat) ⟨1, 2⟩] ∧
      (StyledString.into_cursive_spans (0 : Nat)
          (StyledString.mk ([0, 0, 0] : List Byte)
            [StyledIndexedSpan.mk 1 ⟨1, 2⟩])).countP
          (fun sp => sp.range.containsIdx 1) =
        if 1 < (StyledString.mk ([0, 0, 0] : List Byte)
            [StyledIndexedSpan.mk (1 : Nat) ⟨1, 2⟩]).source.length then 1 else 0 :=
  ⟨by decide,
    spec_C4_flatten_totality 0
      (StyledString.mk ([0, 0, 0] : List Byte) [StyledIndexedSpan.mk 1 ⟨1, 2⟩])
      (by decide) 1⟩

theorem matchIndicesAux_ge (src pat : List Byte) (fuel : Nat) :
    ∀ i, ∀ j ∈ StyledString.matchIndicesAux src pat i fuel, i ≤ j := by
  induction fuel with
  | zero =>
    intro i j hj
    cases hj
  | succ fuel ih =>
    intro i j hj
    unfold StyledString.matchIndicesAux at hj
    split_ifs at hj with h1 h2
    · rcases List.mem_cons.mp hj with rfl | hj
      · exact Nat.le_refl _
      · have := ih _ j hj
        omega
    · have := ih _ j hj
      omega
    · cases hj

theorem replaceAllSpec_nil (frm tgt : List Byte) : replaceAllSpec frm tgt [] = [] := by
  conv_lhs => rw [replaceAllSpec]

theorem replaceAllSpec_pos (frm tgt : List Byte) (b : Byte) (rest : List Byte)
    (h : frm ≠ [] ∧ frm.isPrefixOf (b :: rest) = true) :
    replaceAllSpec frm tgt (b :: rest) =
      tgt ++ replaceAllSpec frm tgt ((b :: rest).drop frm.length) := by
  conv_lhs => rw [replaceAllSpec]
  rw [dif_pos h]

theorem replaceAllSpec_neg (frm tgt : List Byte) (b : Byte) (rest : List Byte)
    (h : ¬(frm ≠ [] ∧ frm.isPrefixOf (b :: rest) = true)) :
    replaceAllSpec frm tgt (b :: rest) = b :: replaceAllSpec frm tgt rest := by
  conv_lhs => rw [replaceAllSpec]
  rw [dif_neg h]

theorem replaceAllSpec_short (frm tgt : List Byte) (s : List Byte)
    (h : s.length < frm.length) : replaceAllSpec frm tgt s = s := by
  induction s with
  | nil => exact replaceAllSpec_nil frm tgt
  | cons b rest ih =>
    rw [replaceAllSpec_neg]
    · rw [ih (by simp at h; omega)]
    · rintro ⟨hne, hpre⟩
      have := (List.isPrefixOf_iff_prefix.mp hpre).length_le
      simp only [List.length_cons] at this h
      omega

theorem simpleReplaceAux_step (src frm tgt : List Byte) (ms : List Nat) (i : Nat)
    (hi : i < src.length) (hms : ∀ j ∈ ms, i < j) :
    StyledString.simpleReplaceAux src frm tgt ms i =
      src.getD i 0 :: StyledString.simpleReplaceAux src frm tgt ms (i + 1) := by
  have hget : src.getD i 0 = src[i] := by
    rw [List.getD_eq_getElem?_getD, List.getElem?_eq_getElem hi]
    rfl
  cases ms with
  | nil =>
    unfold StyledString.simpleReplaceAux
    rw [List.drop_eq_getElem_cons hi, hget]
  | cons st rest =>
    have hst : i < st := hms st (List.mem_cons_self _ _)
    unfold StyledString.simpleReplaceAux
    rw [List.drop_eq_getElem_cons hi, hget]
    have harith : st - i = (st - (i + 1)) + 1 := by omega
    rw [harith, List.take_succ_cons, List.cons_append, List.cons_append]

theorem simple_replace_spec_aux (src frm tgt : List Byte) (hfrm : frm ≠ []) (fuel : Nat) :
    ∀ i, src.length + 1 - i ≤ fuel →
      StyledString.simpleReplaceAux src frm tgt
          (StyledString.matchIndicesAux src frm i fuel) i =
        replaceAllSpec frm tgt (src.drop i) := by
  have hfl : 0 < frm.length := List.length_pos.mpr hfrm
  induction fuel with
  | zero =>
    intro i hfuel
    unfold StyledString.matchIndicesAux StyledString.simpleReplaceAux
    rw [List.drop_eq_nil_of_le (by omega), replaceAllSpec_nil]
  | succ fuel ih =>
    intro i hfuel
    unfold StyledString.matchIndicesAux
    split_ifs with h1 h2
    · -- match at i
      have hmax : max frm.length 1 = frm.length := by omega
      have hi : i < src.length := by omega
      unfold StyledString.simpleReplaceAux
      rw [Nat.sub_self, List.take_zero, List.nil_append, hmax]
      rw [ih (i + frm.length) (by omega)]
      conv_rhs => rw [List.drop_eq_getElem_cons hi]
      rw [replaceAllSpec_pos frm tgt _ _
        ⟨hfrm, by rw [← List.drop_eq_getElem_cons hi]; exact h2⟩]
      rw [← List.drop_eq_getElem_cons hi, List.drop_drop]
    · -- no match at i
      have hi : i < src.length := by omega
      rw [simpleReplaceAux_step src frm tgt _ i hi
        (fun j hj => by have := matchIndicesAux_ge src frm fuel (i + 1) j hj; omega)]
      rw [ih (i + 1) (by omega)]
      conv_rhs => rw [List.drop_eq_getElem_cons hi]
      rw [replaceAllSpec_neg frm tgt _ _ (by
        rintro ⟨hne, hpre⟩
        rw [← List.drop_eq_getElem_cons hi] at hpre
        exact h2 hpre)]
      have hget : src.getD i 0 = src[i] := by
        rw [List.getD_eq_getElem?_getD, List.getElem?_eq_getElem hi]
        rfl
      rw [hget]
    · -- scan past the end: no further matches
      have hlen : (src.drop i).length < frm.length := by
        simp only [List.length_drop]
        omega
      unfold StyledString.simpleReplaceAux
      rw [replaceAllSpec_short frm tgt _ hlen]

/-- C8: for a non-empty pattern, `simple_replace` drops all style spans and
its buffer is the receiver's buffer with every non-overlapping left-to-right
occurrence of the pattern replaced (the specification-level `replaceAllSpec`). -/
theorem spec_C8_simple_replace (s : StyledString α) (frm tgt : List Byte)
    (h : frm ≠ []) :
    (StyledString.simple_replace s frm tgt).spans = [] ∧
      (StyledString.simple_replace s frm tgt).source = replaceAllSpec frm tgt s.source := by
  refine ⟨rfl, ?_⟩
  have := simple_replace_spec_aux s.source frm tgt h (s.source.length + 1) 0 (by omega)
  unfold StyledString.simple_replace StyledString.matchIndices
  simpa using this

/-- Witness for C8 at the spec's concrete scenario: buffer "foo1bar1" with a
span, `simple_replace("1", "")` yields buffer "foobar" and zero spans. -/
theorem spec_C8_simple_replace_witness :
    ([49] : List Byte) ≠ [] ∧
      (StyledString.simple_replace
          (StyledString.mk ([102, 111, 111, 49, 98, 97, 114, 49] : List Byte)
            [StyledIndexedSpan.mk (1 : Nat) ⟨0, 3⟩]) [49] []).spans = [] ∧
      (StyledString.simple_replace
          (StyledString.mk ([102, 111, 111, 49, 98, 97, 114, 49] : List Byte)
            [StyledIndexedSpan.mk (1 : Nat) ⟨0, 3⟩]) [49] []).source =
        [102, 111, 111, 98, 97, 114] := by
  have h := spec_C8_simple_replace
    (StyledString.mk ([102, 111, 111, 49, 98, 97, 114, 49] : List Byte)
      [StyledIndexedSpan.mk (1 : Nat) ⟨0, 3⟩]) [49] [] (by decide)
  exact ⟨by decide, h.1, by decide⟩

theorem coveredBy_cons (sp : StyledIndexedSpan α) (l : List (StyledIndexedSpan α)) (i : Nat) :
    coveredBy (sp :: l) i ↔ sp.range.mem i ∨ coveredBy l i := by
  unfold coveredBy
  constructor
  · rintro ⟨q, hq, hm⟩
    rcases List.mem_cons.mp hq with rfl | hq
    · exact Or.inl hm
    · exact Or.inr ⟨q, hq, hm⟩
  · rintro (hm | ⟨q, hq, hm⟩)
    · exact ⟨sp, List.mem_cons_self _ _, hm⟩
    · exact ⟨q, List.mem_cons_of_mem _ hq, hm⟩

theorem add_span_intersect_loop_covers (comb : α → α → α) (new : StyledIndexedSpan α)
    (spans : List (StyledIndexedSpan α)) (i : Nat) :
    ∀ u, coveredBy spans i →
      coveredBy (StyledString.add_span_intersect_loop comb new spans u).1 i := by
  induction spans with
  | nil =>
    rintro u ⟨sp, hsp, _⟩
    cases hsp
  | cons span rest ih =>
    intro u h
    unfold StyledString.add_span_intersect_loop
    rcases hI : span.intersection new.range with _ | inter
    · rcases (coveredBy_cons span rest i).mp h with hm | hc
      · exact (coveredBy_cons _ _ _).mpr (Or.inl hm)
      · obtain ⟨t, ht, hm⟩ := ih _ hc
        exact ⟨t, List.mem_cons_of_mem _ ht, hm⟩
    · rcases (coveredBy_cons span rest i).mp h with hm | hc
      · rcases (range_remove_mem_iff span.range inter i).mp hm with hl | hmid | hr
        · rcases hL : (range_remove span.range inter).1 with _ | l
          · rw [hL] at hl
            cases hl
          · rw [hL] at hl
            refine ⟨StyledIndexedSpan.mk span.attr l, ?_, hl⟩
            simp [hL, List.mem_append]
        · have hin : inter.mem i := by
            have := (mem_range_intersection span.range inter i).mp hmid
            exact this.2
          refine ⟨StyledIndexedSpan.mk (comb span.attr new.attr) inter, ?_, hin⟩
          simp [List.mem_append]
        · rcases hR : (range_remove span.range inter).2 with _ | r
          · rw [hR] at hr
            cases hr
          · rw [hR] at hr
            refine ⟨StyledIndexedSpan.mk span.attr r, ?_, hr⟩
            simp [hR, List.mem_append]
      · obtain ⟨t, ht, hm⟩ := ih _ hc
        exact ⟨t, List.mem_append.mpr (Or.inr ht), hm⟩

theorem add_span_intersect_loop_combined (comb : α → α → α) (new : StyledIndexedSpan α)
    (spans : List (StyledIndexedSpan α)) (i : Nat) (sp : StyledIndexedSpan α)
    (hmem : sp.range.mem i) (hn : new.range.mem i) :
    ∀ u, sp ∈ spans →
      ∃ t ∈ (StyledString.add_span_intersect_loop comb new spans u).1,
        t.range.mem i ∧ t.attr = comb sp.attr new.attr := by
  induction spans with
  | nil =>
    intro u hsp
    cases hsp
  | cons span rest ih =>
    intro u hsp
    unfold StyledString.add_span_intersect_loop
    rcases List.mem_cons.mp hsp with rfl | hsp'
    · rcases hI : sp.intersection new.range with _ | inter
      · exfalso
        have hiff := mem_range_intersection sp.range new.range i
        have : range_intersection sp.range new.range = none := hI
        rw [this] at hiff
        exact hiff.mpr ⟨hmem, hn⟩
      · have hin : inter.mem i := by
          have hiff := mem_range_intersection sp.range new.range i
          have heq : range_intersection sp.range new.range = some inter := hI
          rw [heq] at hiff
          exact hiff.mpr ⟨hmem, hn⟩
        refine ⟨StyledIndexedSpan.mk (comb sp.attr new.attr) inter, ?_, hin, rfl⟩
        simp [List.mem_append]
    · rcases hI : span.intersection new.range with _ | inter
      · obtain ⟨t, ht, hp⟩ := ih _ hsp'
        exact ⟨t, List.mem_cons_of_mem _ ht, hp⟩
      · obtain ⟨t, ht, hp⟩ := ih _ hsp'
        exact ⟨t, List.mem_append.mpr (Or.inr ht), hp⟩

theorem add_span_intersect_loop_used (comb : α → α → α) (new : StyledIndexedSpan α)
    (spans : List (StyledIndexedSpan α)) :
    ∀ u, u ≤ new.range.stop →
      u ≤ (StyledString.add_span_intersect_loop comb new spans u).2 ∧
        (StyledString.add_span_intersect_loop comb new spans u).2 ≤ new.range.stop := by
  induction spans with
  | nil =>
    intro u hu
    exact ⟨Nat.le_refl _, hu⟩
  | cons span rest ih =>
    intro u hu
    unfold StyledString.add_span_intersect_loop
    rcases hI : span.intersection new.range with _ | inter
    · exact ih u hu
    · have hstop : inter.stop ≤ new.range.stop := by
        obtain ⟨rfl, h2⟩ := range_intersection_eq span.range new.range inter hI
        show min span.range.stop new.range.stop ≤ new.range.stop
        omega
      have hrec := ih (max u inter.stop) (by omega)
      exact ⟨Nat.le_trans (Nat.le_max_left _ _) hrec.1, hrec.2⟩

/-- C1 (counterexample): merge coverage fails as stated.  Buffer of 8 bytes
with stored spans `4..6` (attr 10) and `4..6` (attr 20); adding the new span
`1..8` (attr 30) with `+` as the attribute combiner: byte 2 lies in the new
span but is covered by no resulting span (the running `used` range absorbs
`1..6` although only `4..6` intersected anything), and byte 4 — where the new
span overlaps existing spans — is covered by two resulting spans, not exactly
one. -/
theorem spec_C1_counterexample :
    (Rg.mem ⟨1, 8⟩ 2 ∧
      ¬coveredBy (StyledString.add_span_intersect (fun a b => a + b)
        (StyledString.mk (List.replicate 8 0)
          [StyledIndexedSpan.mk 10 ⟨4, 6⟩, StyledIndexedSpan.mk 20 ⟨4, 6⟩])
        (StyledIndexedSpan.mk 30 ⟨1, 8⟩)).spans 2) ∧
    ((StyledString.add_span_intersect (fun a b => a + b)
        (StyledString.mk (List.replicate 8 0)
          [StyledIndexedSpan.mk 10 ⟨4, 6⟩, StyledIndexedSpan.mk 20 ⟨4, 6⟩])
        (StyledIndexedSpan.mk 30 ⟨1, 8⟩)).spans.countP
      (fun sp => sp.range.containsIdx 4)) = 2 := by
  decide

/-- C1 (amended): after `add_span_intersect` with a non-empty in-bounds new
span, (1) every byte covered by the original spans stays covered; (2) every
byte of the new span at or beyond the final `used` end is covered (bytes of
the new span before that point that lie in no original span may be dropped);
and (3) every byte where the new span overlaps an existing span is covered by
a resulting span carrying that existing span's attribute combined with the
new attribute — one per overlapping existing span, so not necessarily exactly
one in total. -/
theorem spec_C1_merge_coverage (comb : α → α → α) (s : StyledString α)
    (new : StyledIndexedSpan α) (i : Nat) (hne : new.isEmpty = false)
    (hbound : new.range.stop ≤ s.source.length) :
    (coveredBy s.spans i →
      coveredBy (StyledString.add_span_intersect comb s new).spans i) ∧
    (new.range.mem i →
      (StyledString.add_span_intersect_loop comb new s.spans new.range.start).2 ≤ i →
      coveredBy (StyledString.add_span_intersect comb s new).spans i) ∧
    (∀ sp ∈ s.spans, sp.range.mem i → new.range.mem i →
      ∃ t ∈ (StyledString.add_span_intersect comb s new).spans,
        t.range.mem i ∧ t.attr = comb sp.attr new.attr) := by
  have hne' : new.range.start < new.range.stop := by
    simp only [StyledIndexedSpan.isEmpty, Rg.isEmpty, decide_eq_false_iff_not, not_le] at hne
    exact hne
  unfold StyledString.add_span_intersect
  simp only [hne, Bool.false_eq_true, if_false]
  refine ⟨?_, ?_, ?_⟩
  · intro hc
    obtain ⟨t, ht, hm⟩ := add_span_intersect_loop_covers comb new s.spans i new.range.start hc
    exact ⟨t, List.mem_append.mpr (Or.inl (List.mem_append.mpr (Or.inl ht))), hm⟩
  · intro hni hu
    have hused := add_span_intersect_loop_used comb new s.spans new.range.start (by omega)
    rcases (range_remove_mem_iff new.range
        ⟨new.range.start, (StyledString.add_span_intersect_loop comb new s.spans
          new.range.start).2⟩ i).mp hni with hl | hmid | hr
    · rcases hL : (range_remove new.range
          ⟨new.range.start, (StyledString.add_span_intersect_loop comb new s.spans
            new.range.start).2⟩).1 with _ | l
      · rw [hL] at hl
        cases hl
      · rw [hL] at hl
        refine ⟨StyledIndexedSpan.mk new.attr l, ?_, hl⟩
        simp [hL, List.mem_append]
    · exfalso
      have := (mem_range_intersection new.range
        ⟨new.range.start, (StyledString.add_span_intersect_loop comb new s.spans
          new.range.start).2⟩ i).mp hmid
      have h2 := this.2
      unfold Rg.mem at h2
      simp only at h2
      omega
    · rcases hR : (range_remove new.range
          ⟨new.range.start, (StyledString.add_span_intersect_loop comb new s.spans
            new.range.start).2⟩).2 with _ | r
      · rw [hR] at hr
        cases hr
      · rw [hR] at hr
        refine ⟨StyledIndexedSpan.mk new.attr r, ?_, hr⟩
        simp [hR, List.mem_append]
  · intro sp hsp hmem hni
    obtain ⟨t, ht, hp⟩ :=
      add_span_intersect_loop_combined comb new s.spans i sp hmem hni new.range.start hsp
    exact ⟨t, List.mem_append.mpr (Or.inl (List.mem_append.mpr (Or.inl ht))), hp⟩

/-- Witness for the amended C1: buffer of 8 bytes with one span `4..6` (attr
10), new span `1..8` (attr 30), combiner `+`: byte 5 (covered before) stays
covered and carries the combined attribute 40, and byte 7 (at or past the
used end 6) is covered. -/
theorem spec_C1_merge_coverage_witness :
    ((StyledIndexedSpan.mk (30 : Nat) (⟨1, 8⟩ : Rg)).isEmpty = false ∧
      (StyledIndexedSpan.mk (30 : Nat) (⟨1, 8⟩ : Rg)).range.stop ≤
        (List.replicate 8 (0 : Nat)).length) ∧
    coveredBy (StyledString.add_span_intersect (fun a b => a + b)
      (StyledString.mk (List.replicate 8 0) [StyledIndexedSpan.mk 10 ⟨4, 6⟩])
      (StyledIndexedSpan.mk 30 ⟨1, 8⟩)).spans 5 ∧
    coveredBy (StyledString.add_span_intersect (fun a b => a + b)
      (StyledString.mk (List.replicate 8 0) [StyledIndexedSpan.mk 10 ⟨4, 6⟩])
      (StyledIndexedSpan.mk 30 ⟨1, 8⟩)).spans 7 ∧
    (∃ t ∈ (StyledString.add_span_intersect (fun a b => a + b)
        (StyledString.mk (List.replicate 8 0) [StyledIndexedSpan.mk 10 ⟨4, 6⟩])
        (StyledIndexedSpan.mk 30 ⟨1, 8⟩)).spans,
      t.range.mem 5 ∧ t.attr = 10 + 30) :=
  ⟨⟨by decide, by decide⟩,
    (spec_C1_merge_coverage (fun a b => a + b)
      (StyledString.mk (List.replicate 8 0) [StyledIndexedSpan.mk 10 ⟨4, 6⟩])
      (StyledIndexedSpan.mk 30 ⟨1, 8⟩) 5 (by decide) (by decide)).1 (by decide),
    (spec_C1_merge_coverage (fun a b => a + b)
      (StyledString.mk (List.replicate 8 0) [StyledIndexedSpan.mk 10 ⟨4, 6⟩])
      (StyledIndexedSpan.mk 30 ⟨1, 8⟩) 7 (by decide) (by decide)).2.1 (by decide) (by decide),
    (spec_C1_merge_coverage (fun a b => a + b)
      (StyledString.mk (List.replicate 8 0) [StyledIndexedSpan.mk 10 ⟨4, 6⟩])
      (StyledIndexedSpan.mk 30 ⟨1, 8⟩) 5 (by decide) (by decide)).2.2
      (StyledIndexedSpan.mk 10 ⟨4, 6⟩) (by decide) (by decide) (by decide)⟩

end Fiskar
